import Mathlib

/-!
Verification of the multi-agent orchestration framework (`main.py`).

The framework drives six LLM "agent" roles over one natural-language
requirement.  The parts formalised here are the ones the specification
makes claims about:

* the response parser: `re.search(r'\{.*\}', text, re.DOTALL)` followed by
  `json.loads`, with a per-call-site fallback value (inlined at two call
  sites, `_analyze_requirements` and `_review_code`);
* the bounded review/revision loop `_review_code`;
* the stage pipeline `process_requirement` accumulating `self.results`.

LLM responses are external inputs, so every agent response is modelled as
an oracle: the i-th invocation of a role yields the i-th entry of the
role's response sequence; a transport failure of the underlying chat call
is an `Except.error`.  `json.loads` is the Python standard library, not
repository code, so it too is a parameter (`loads`): a partial function
from the brace-delimited span to the decoded object's key/value entries
(a successfully decoded span of shape `{...}` is always a JSON object).
-/

/-- JSON values, as produced by decoding a model response. -/
inductive Json where
  | null
  | bool (b : Bool)
  | num (n : Int)
  | str (s : String)
  | arr (elems : List Json)
  | obj (fields : List (String × Json))

/-- A decoded JSON object: the entries of the Python dict produced by
`json.loads` (keys distinct, in order). -/
abbrev Obj := List (String × Json)

/-- `d.get(key)` on a decoded object: the value at `key`, or `None`. -/
def jGet (o : Obj) (key : String) : Option Json :=
  (o.find? (fun p => p.1 == key)).map (fun p => p.2)

/-- The loop guard `review_result.get('status') == 'approved'`: true exactly
when the `status` field is present and equals the string `"approved"`. -/
def isApproved (o : Obj) : Bool :=
  match jGet o "status" with
  | some (Json.str s) => s == "approved"
  | _ => false

/-- Index of the first character satisfying `p`, if any. -/
def firstIdx (p : Char → Bool) : List Char → Option Nat
  | [] => none
  | a :: as => if p a then some 0 else (firstIdx p as).map (fun k => k + 1)

/-- Index of the last character satisfying `p`, if any. -/
def lastIdx (p : Char → Bool) : List Char → Option Nat
  | [] => none
  | a :: as =>
    match lastIdx p as with
    | some k => some (k + 1)
    | none => if p a then some 0 else none

/-- The regex `\{.*\}` (with `re.DOTALL`) matches the span `[i, j]` of `l`:
an opening brace at `i`, a closing brace at `j`, strictly later. -/
def matchAt (l : List Char) (i j : Nat) : Prop :=
  l[i]? = some '{' ∧ l[j]? = some '}' ∧ i < j

instance (l : List Char) (i j : Nat) : Decidable (matchAt l i j) := by
  unfold matchAt; infer_instance

/-- `re.search` semantics for `\{.*\}`: the span `[i, j]` is the match
reported by `re.search` — the start `i` is leftmost among all matchable
starts, and for that start the greedy `.*` extends `j` to the last
closing brace. -/
def searchSpan (l : List Char) (i j : Nat) : Prop :=
  matchAt l i j ∧
    (∀ i' < i, ∀ j' < l.length, ¬ matchAt l i' j') ∧
    (∀ j' < l.length, j < j' → ¬ matchAt l i j')

instance (l : List Char) (i j : Nat) : Decidable (searchSpan l i j) := by
  unfold searchSpan; infer_instance

/-- The characters of the span `[i, j]` of `l`, as a string. -/
def spanSlice (l : List Char) (i j : Nat) : String :=
  String.mk ((l.drop i).take (j - i + 1))

/-- The span captured by `re.search(r'\{.*\}', text, re.DOTALL)`: from the
first `{` of `text` to the last `}`, provided the former precedes the
latter; `none` when the pattern does not match. -/
def braceSpan (text : String) : Option String :=
  match firstIdx (fun c => c == '{') text.data, lastIdx (fun c => c == '}') text.data with
  | some i, some j => if i < j then some (spanSlice text.data i j) else none
  | _, _ => none

/-- The response parser inlined at both parse sites of `main.py`
(lines 264–272 and 311–320): extract the `re.search(r'\{.*\}', ...)` span
and `json.loads` it; on a missing span or a decode failure, return the
call site's fallback.  The bare `except` means it never raises. -/
def extract_structured (loads : String → Option Obj) (text : String) (fallback : Obj) : Obj :=
  match braceSpan text with
  | some s =>
    match loads s with
    | some v => v
    | none => fallback
  | none => fallback

/-- The reviewer fallback verdict `{"status": "approved", "score": 8}`. -/
def reviewFallback : Obj :=
  [("status", Json.str "approved"), ("score", Json.num 8)]

/-- Parsing one reviewer response inside `_review_code`. -/
def parseReview (loads : String → Option Obj) (text : String) : Obj :=
  extract_structured loads text reviewFallback

/-- The `_analyze_requirements` fallback record. -/
def reqFallback (requirement : String) : Obj :=
  [("title", Json.str "Software Project"),
   ("description", Json.str requirement),
   ("features", Json.arr [Json.str "Core functionality"]),
   ("constraints", Json.arr [Json.str "Python implementation"]),
   ("edge_cases", Json.arr [])]

/-- `_analyze_requirements`, given the Analyst's response text: parse the
brace span of the response, falling back to the fixed record built from
the original requirement. -/
def analyze_requirements (loads : String → Option Obj) (text requirement : String) : Obj :=
  extract_structured loads text (reqFallback requirement)

/-- A Python exception escaping a stage: a transport/model failure raised
inside `initiate_chat`, or the `UnboundLocalError` raised by the final
`return review_result, current_code` of `_review_code` when the loop body
never ran. -/
inductive PyErr where
  | transport (msg : String)
  | nameError
deriving DecidableEq

/-- Outcome of `_review_code`: the returned `(review_result, current_code)`
pair (or the escaping exception), together with how many Reviewer
invocations and how many Developer revision invocations were made. -/
structure LoopOut where
  result : Except PyErr (Obj × String)
  reviewCalls : Nat
  revisionCalls : Nat

/-- A response oracle in which every invocation succeeds, yielding the
given response sequence. -/
def okSeq (f : Nat → String) : Nat → Except PyErr String :=
  fun i => Except.ok (f i)

/-- Case analysis on a chat-call outcome (plumbing for the loop body). -/
def exceptCase {β : Type} (x : Except PyErr String)
    (err : PyErr → β) (ok : String → β) : β :=
  match x with
  | Except.error e => err e
  | Except.ok a => ok a

/-- Case analysis on an optional value (plumbing for the loop body). -/
def optionCase {α β : Type} (x : Option α) (ifNone : β) (ifSome : α → β) : β :=
  match x with
  | none => ifNone
  | some a => ifSome a

/-- The `while iteration < max_iterations` loop of `_review_code`
(`main.py` lines 297–339), one call per loop entry check.  State:
`currentCode` is the Python local `current_code`, `iteration` the Python
local `iteration` (a Python int, so `Int`), `lastVerdict` the Python local
`review_result` (absent before its first assignment), and
`reviewCalls`/`revisionCalls` count the role invocations made so far (the
i-th Reviewer invocation receives response `rv i`, the i-th Developer
revision invocation response `dv i`).  When the guard fails, the final
`return review_result, current_code` executes: an `UnboundLocalError` if
`review_result` was never assigned. -/
def review_code_loop (loads : String → Option Obj) (rv dv : Nat → Except PyErr String)
    (currentCode : String) (maxIterations iteration : Int)
    (reviewCalls revisionCalls : Nat) (lastVerdict : Option Obj) : LoopOut :=
  if _h : iteration < maxIterations then
    exceptCase (rv reviewCalls)
      (fun e => ⟨Except.error e, reviewCalls + 1, revisionCalls⟩)
      (fun reviewText =>
        let verdict := parseReview loads reviewText
        if isApproved verdict then
          ⟨Except.ok (verdict, currentCode), reviewCalls + 1, revisionCalls⟩
        else if iteration < maxIterations - 1 then
          exceptCase (dv revisionCalls)
            (fun e => ⟨Except.error e, reviewCalls + 1, revisionCalls + 1⟩)
            (fun newCode =>
              review_code_loop loads rv dv newCode maxIterations (iteration + 1)
                (reviewCalls + 1) (revisionCalls + 1) (some verdict))
        else
          review_code_loop loads rv dv currentCode maxIterations (iteration + 1)
            (reviewCalls + 1) revisionCalls (some verdict))
  else
    optionCase lastVerdict
      ⟨Except.error PyErr.nameError, reviewCalls, revisionCalls⟩
      (fun v => ⟨Except.ok (v, currentCode), reviewCalls, revisionCalls⟩)
termination_by (maxIterations - iteration).toNat
decreasing_by
  all_goals omega

/-- `_review_code(code, requirements, max_iterations)`: the loop entered
with `current_code = code`, `iteration = 0`, and `review_result` unbound.
(The `requirements` argument is unused by the source.) -/
def review_code (loads : String → Option Obj) (rv dv : Nat → Except PyErr String)
    (code : String) (maxIterations : Int) : LoopOut :=
  review_code_loop loads rv dv code maxIterations 0 0 0 none

/-- The external world of one `process_requirement` run: the decoder and
one response oracle per agent role.  `devText 0` is the initial
`_generate_code` response; `devText (i+1)` is the response to the i-th
revision request issued by `_review_code`.  `timestamp` stands for
`datetime.now().isoformat()`. -/
structure Env where
  loads : String → Option Obj
  analystText : Except PyErr String
  devText : Nat → Except PyErr String
  reviewText : Nat → Except PyErr String
  docText : Except PyErr String
  testText : Except PyErr String
  deployText : Except PyErr String
  timestamp : String

/-- Python dict assignment `d[k] = v`: replace in place if the key exists,
otherwise append (insertion order preserved). -/
def upsert (m : List (String × Json)) (k : String) (v : Json) : List (String × Json) :=
  if m.any (fun p => p.1 == k) then m.map (fun p => if p.1 == k then (k, v) else p)
  else m ++ [(k, v)]

/-- Steps 3–6 of `process_requirement`, from the outcome of the review
stage onward: store `review` and `final_code`, then run the
documentation, test, and deployment stages, storing each result as it
completes.  `r2` is the mapping as of the end of step 2. -/
def process_after_code (env : Env) (r2 : List (String × Json))
    (loopResult : Except PyErr (Obj × String)) : List (String × Json) × Option PyErr :=
  match loopResult with
  | Except.error e => (r2, some e)
  | Except.ok (reviewResult, finalCode) =>
    let r3 := upsert (upsert r2 "review" (Json.obj reviewResult))
      "final_code" (Json.str finalCode)
    match env.docText with
    | Except.error e => (r3, some e)
    | Except.ok docResult =>
      let r4 := upsert r3 "documentation" (Json.str docResult)
      match env.testText with
      | Except.error e => (r4, some e)
      | Except.ok testResult =>
        let r5 := upsert r4 "tests" (Json.str testResult)
        match env.deployText with
        | Except.error e => (r5, some e)
        | Except.ok deployResult =>
          (upsert r5 "deployment"
            (Json.obj [("script", Json.str deployResult),
              ("timestamp", Json.str env.timestamp)]), none)

/-- `process_requirement(requirement)` (`main.py` lines 201–250) run
against the environment `env`, starting from the instance's current
`self.results` mapping `results0` (`{}` on a fresh instance).  Returns the
mapping as left by the call, together with the exception that propagated,
if any (the `except` clause only logs and re-raises).  Each stage writes
its output into the mapping immediately after completing; a stage failure
aborts the remaining stages. -/
def process_requirement (env : Env) (requirement : String)
    (results0 : List (String × Json)) : List (String × Json) × Option PyErr :=
  match env.analystText with
  | Except.error e => (results0, some e)
  | Except.ok analystResponse =>
    let reqResult := analyze_requirements env.loads analystResponse requirement
    let r1 := upsert results0 "requirements" (Json.obj reqResult)
    match env.devText 0 with
    | Except.error e => (r1, some e)
    | Except.ok codeResult =>
      let r2 := upsert r1 "code" (Json.str codeResult)
      process_after_code env r2
        (review_code env.loads env.reviewText (fun i => env.devText (i + 1))
          codeResult 3).result

/-- Non-emptiness of a stored result value, in the sense of the spec's
"each non-empty": a non-empty string, object, or array. -/
def jsonNonempty : Json → Bool
  | Json.str s => !(s == "")
  | Json.obj l => !l.isEmpty
  | Json.arr l => !l.isEmpty
  | _ => true

/-- An environment in which every chat call succeeds but every role
responds with the empty string. -/
def envEmptyResponses : Env where
  loads := fun _ => none
  analystText := Except.ok ""
  devText := okSeq (fun _ => "")
  reviewText := okSeq (fun _ => "")
  docText := Except.ok ""
  testText := Except.ok ""
  deployText := Except.ok ""
  timestamp := "2026-01-01T00:00:00"

/-- An environment in which every chat call succeeds with a fixed
non-trivial response. -/
def envAllOk : Env where
  loads := fun _ => none
  analystText := Except.ok "analysis"
  devText := okSeq (fun _ => "some code")
  reviewText := okSeq (fun _ => "looks good")
  docText := Except.ok "docs"
  testText := Except.ok "tests"
  deployText := Except.ok "deploy"
  timestamp := "2026-01-01T00:00:00"

/-- An environment in which the very first chat call (the Analyst) fails
with a transport error. -/
def envAnalystDown : Env where
  loads := fun _ => none
  analystText := Except.error (PyErr.transport "connection refused")
  devText := okSeq (fun _ => "some code")
  reviewText := okSeq (fun _ => "looks good")
  docText := Except.ok "docs"
  testText := Except.ok "tests"
  deployText := Except.ok "deploy"
  timestamp := "2026-01-01T00:00:00"

@[simp] theorem exceptCase_error {β : Type} {e : PyErr}
    {err : PyErr → β} {ok : String → β} :
    exceptCase (Except.error e) err ok = err e := rfl

@[simp] theorem exceptCase_ok {β : Type} {a : String}
    {err : PyErr → β} {ok : String → β} :
    exceptCase (Except.ok a) err ok = ok a := rfl

@[simp] theorem optionCase_none {α β : Type} {ifNone : β} {ifSome : α → β} :
    optionCase (none : Option α) ifNone ifSome = ifNone := rfl

@[simp] theorem optionCase_some {α β : Type} {a : α} {ifNone : β} {ifSome : α → β} :
    optionCase (some a) ifNone ifSome = ifSome a := rfl

/-- `firstIdx` finds exactly the first index whose character satisfies `p`. -/
theorem firstIdx_eq_some_iff {p : Char → Bool} {l : List Char} {i : Nat} :
    firstIdx p l = some i ↔
      ((∃ c, l[i]? = some c ∧ p c = true) ∧
        ∀ k, k < i → ∀ c, l[k]? = some c → p c = false) := by
  induction l generalizing i with
  | nil => simp [firstIdx]
  | cons a as ih =>
    rw [firstIdx]
    by_cases hpa : p a = true
    · rw [if_pos hpa]
      constructor
      · intro h
        injection h with h
        subst h
        refine ⟨⟨a, by simp, hpa⟩, ?_⟩
        intro k hk
        exact absurd hk (Nat.not_lt_zero k)
      · rintro ⟨⟨c, hc, hpc⟩, hmin⟩
        cases i with
        | zero => rfl
        | succ n =>
          have h0 : (a :: as)[0]? = some a := by simp
          have := hmin 0 (Nat.succ_pos n) a h0
          rw [hpa] at this
          cases this
    · have hpa' : p a = false := by simpa using hpa
      rw [if_neg hpa]
      cases i with
      | zero =>
        simp only [Option.map_eq_some']
        constructor
        · rintro ⟨k, _, hk⟩
          exact absurd hk (by omega)
        · rintro ⟨⟨c, hc, hpc⟩, _⟩
          rw [List.getElem?_cons_zero] at hc
          injection hc with hc
          subst hc
          rw [hpa'] at hpc
          cases hpc
      | succ n =>
        simp only [Option.map_eq_some']
        constructor
        · rintro ⟨k, hk, hkn⟩
          have hkn' : k = n := by omega
          subst hkn'
          obtain ⟨⟨c, hc, hpc⟩, hmin⟩ := ih.mp hk
          refine ⟨⟨c, ?_, hpc⟩, ?_⟩
          · rw [List.getElem?_cons_succ]
            exact hc
          · intro k hk' c' hc'
            cases k with
            | zero =>
              rw [List.getElem?_cons_zero] at hc'
              injection hc' with hc'
              subst hc'
              exact hpa'
            | succ m =>
              rw [List.getElem?_cons_succ] at hc'
              exact hmin m (by omega) c' hc'
        · rintro ⟨⟨c, hc, hpc⟩, hmin⟩
          rw [List.getElem?_cons_succ] at hc
          refine ⟨n, ih.mpr ⟨⟨c, hc, hpc⟩, ?_⟩, rfl⟩
          intro k hk c' hc'
          have hc'' : (a :: as)[k + 1]? = some c' := by
            rw [List.getElem?_cons_succ]
            exact hc'
          exact hmin (k + 1) (by omega) c' hc''

/-- `firstIdx` fails exactly when no character satisfies `p`. -/
theorem firstIdx_eq_none_iff {p : Char → Bool} {l : List Char} :
    firstIdx p l = none ↔ ∀ (k : Nat) (c : Char), l[k]? = some c → p c = false := by
  induction l with
  | nil => simp [firstIdx]
  | cons a as ih =>
    rw [firstIdx]
    by_cases hpa : p a = true
    · rw [if_pos hpa]
      constructor
      · intro hc
        cases hc
      · intro h
        have := h 0 a (by simp)
        rw [hpa] at this
        cases this
    · have hpa' : p a = false := by simpa using hpa
      rw [if_neg hpa]
      rw [Option.map_eq_none', ih]
      constructor
      · intro h k c hc
        cases k with
        | zero =>
          rw [List.getElem?_cons_zero] at hc
          injection hc with hc
          subst hc
          exact hpa'
        | succ m =>
          rw [List.getElem?_cons_succ] at hc
          exact h m c hc
      · intro h k c hc
        have hc' : (a :: as)[k + 1]? = some c := by
          rw [List.getElem?_cons_succ]
          exact hc
        exact h (k + 1) c hc'

/-- An index reported by `lastIdx` carries a character satisfying `p`. -/
theorem lastIdx_mem {p : Char → Bool} {l : List Char} {j : Nat}
    (h : lastIdx p l = some j) : ∃ c, l[j]? = some c ∧ p c = true := by
  induction l generalizing j with
  | nil => cases h
  | cons a as ih =>
    rw [lastIdx] at h
    cases hr : lastIdx p as with
    | some m =>
      rw [hr] at h
      injection h with h
      subst h
      obtain ⟨c, hc, hpc⟩ := ih hr
      refine ⟨c, ?_, hpc⟩
      rw [List.getElem?_cons_succ]
      exact hc
    | none =>
      rw [hr] at h
      by_cases hpa : p a = true
      · rw [if_pos hpa] at h
        injection h with h
        subst h
        exact ⟨a, by simp, hpa⟩
      · rw [if_neg hpa] at h
        cases h

/-- `lastIdx` fails exactly when no character satisfies `p`. -/
theorem lastIdx_eq_none_iff {p : Char → Bool} {l : List Char} :
    lastIdx p l = none ↔ ∀ (k : Nat) (c : Char), l[k]? = some c → p c = false := by
  induction l with
  | nil => simp [lastIdx]
  | cons a as ih =>
    rw [lastIdx]
    cases h : lastIdx p as with
    | some k =>
      constructor
      · intro hc
        cases hc
      · intro hall
        obtain ⟨c, hc, hpc⟩ := lastIdx_mem h
        have hc' : (a :: as)[k + 1]? = some c := by
          rw [List.getElem?_cons_succ]
          exact hc
        have := hall (k + 1) c hc'
        rw [hpc] at this
        cases this
    | none =>
      by_cases hpa : p a = true
      · rw [if_pos hpa]
        constructor
        · intro hc
          cases hc
        · intro hall
          have := hall 0 a (by simp)
          rw [hpa] at this
          cases this
      · have hpa' : p a = false := by simpa using hpa
        rw [if_neg hpa]
        constructor
        · intro _ k c hc
          cases k with
          | zero =>
            rw [List.getElem?_cons_zero] at hc
            injection hc with hc
            subst hc
            exact hpa'
          | succ m =>
            rw [List.getElem?_cons_succ] at hc
            exact ih.mp h m c hc
        · intro _
          rfl

/-- `lastIdx` finds exactly the last index whose character satisfies `p`. -/
theorem lastIdx_eq_some_iff {p : Char → Bool} {l : List Char} {j : Nat} :
    lastIdx p l = some j ↔
      ((∃ c, l[j]? = some c ∧ p c = true) ∧
        ∀ k, j < k → ∀ c, l[k]? = some c → p c = false) := by
  induction l generalizing j with
  | nil => simp [lastIdx]
  | cons a as ih =>
    rw [lastIdx]
    cases h : lastIdx p as with
    | some m =>
      constructor
      · intro hj
        injection hj with hj
        subst hj
        obtain ⟨⟨c, hc, hpc⟩, hmax⟩ := ih.mp h
        refine ⟨⟨c, ?_, hpc⟩, ?_⟩
        · rw [List.getElem?_cons_succ]
          exact hc
        · intro k hk c' hc'
          cases k with
          | zero => exact absurd hk (by omega)
          | succ n =>
            rw [List.getElem?_cons_succ] at hc'
            exact hmax n (by omega) c' hc'
      · rintro ⟨⟨c, hc, hpc⟩, hmax⟩
        cases j with
        | zero =>
          obtain ⟨c', hc', hpc'⟩ := lastIdx_mem h
          have hc'' : (a :: as)[m + 1]? = some c' := by
            rw [List.getElem?_cons_succ]
            exact hc'
          have := hmax (m + 1) (by omega) c' hc''
          rw [hpc'] at this
          cases this
        | succ n =>
          rw [List.getElem?_cons_succ] at hc
          have hnn : lastIdx p as = some n := by
            refine ih.mpr ⟨⟨c, hc, hpc⟩, ?_⟩
            intro k hk c' hc'
            have hc'' : (a :: as)[k + 1]? = some c' := by
              rw [List.getElem?_cons_succ]
              exact hc'
            exact hmax (k + 1) (by omega) c' hc''
          rw [h] at hnn
          injection hnn with hnn
          subst hnn
          rfl
    | none =>
      by_cases hpa : p a = true
      · rw [if_pos hpa]
        constructor
        · intro hj
          injection hj with hj
          subst hj
          refine ⟨⟨a, by simp, hpa⟩, ?_⟩
          intro k hk c' hc'
          cases k with
          | zero => exact absurd hk (by omega)
          | succ n =>
            rw [List.getElem?_cons_succ] at hc'
            exact lastIdx_eq_none_iff.mp h n c' hc'
        · rintro ⟨⟨c, hc, hpc⟩, hmax⟩
          cases j with
          | zero => rfl
          | succ n =>
            rw [List.getElem?_cons_succ] at hc
            have := lastIdx_eq_none_iff.mp h n c hc
            rw [hpc] at this
            cases this
      · have hpa' : p a = false := by simpa using hpa
        rw [if_neg hpa]
        constructor
        · intro hj
          cases hj
        · rintro ⟨⟨c, hc, hpc⟩, hmax⟩
          cases j with
          | zero =>
            rw [List.getElem?_cons_zero] at hc
            injection hc with hc
            subst hc
            rw [hpa'] at hpc
            cases hpc
          | succ n =>
            rw [List.getElem?_cons_succ] at hc
            have := lastIdx_eq_none_iff.mp h n c hc
            rw [hpc] at this
            cases this

/-- Both endpoints of a match lie inside the text. -/
theorem matchAt_lt_length {l : List Char} {i j : Nat} (h : matchAt l i j) :
    i < l.length ∧ j < l.length := by
  obtain ⟨hi, hj, _⟩ := h
  obtain ⟨hi', _⟩ := List.getElem?_eq_some_iff.mp hi
  obtain ⟨hj', _⟩ := List.getElem?_eq_some_iff.mp hj
  exact ⟨hi', hj'⟩

/-- `braceSpan` computes exactly the span of the leftmost-greedy
`re.search(r'\{.*\}', text, re.DOTALL)` match. -/
theorem braceSpan_eq_some_iff {text s : String} :
    braceSpan text = some s ↔
      ∃ i j, searchSpan text.data i j ∧ s = spanSlice text.data i j := by
  unfold braceSpan
  constructor
  · intro h
    cases hf : firstIdx (fun c => c == '{') text.data with
    | none =>
      rw [hf] at h
      cases h
    | some i =>
      cases hl : lastIdx (fun c => c == '}') text.data with
      | none =>
        rw [hf, hl] at h
        cases h
      | some j =>
        rw [hf, hl] at h
        simp only [] at h
        by_cases hij : i < j
        · rw [if_pos hij] at h
          injection h with h
          obtain ⟨⟨ci, hci, hpci⟩, hmin⟩ := firstIdx_eq_some_iff.mp hf
          obtain ⟨⟨cj, hcj, hpcj⟩, hmax⟩ := lastIdx_eq_some_iff.mp hl
          have hci' : text.data[i]? = some '{' := by
            rw [hci]
            congr 1
            exact (beq_iff_eq.mp hpci).symm ▸ rfl
          have hcj' : text.data[j]? = some '}' := by
            rw [hcj]
            congr 1
            exact (beq_iff_eq.mp hpcj).symm ▸ rfl
          refine ⟨i, j, ⟨⟨hci', hcj', hij⟩, ?_, ?_⟩, h.symm⟩
          · intro i' hi' j' hj' hm
            have := hmin i' hi' '{' hm.1
            simp at this
          · intro j' hj' hjj' hm
            have := hmax j' hjj' '}' hm.2.1
            simp at this
        · rw [if_neg hij] at h
          cases h
  · rintro ⟨i, j, ⟨⟨hi, hj, hij⟩, hmin, hmax⟩, hs⟩
    have hjlen : j < text.data.length := (matchAt_lt_length ⟨hi, hj, hij⟩).2
    have hf : firstIdx (fun c => c == '{') text.data = some i := by
      refine firstIdx_eq_some_iff.mpr ⟨⟨'{', hi, by simp⟩, ?_⟩
      intro k hk c hc
      by_cases hcq : c = '{'
      · subst hcq
        exact absurd ⟨hc, hj, by omega⟩ (hmin k hk j hjlen)
      · simpa using hcq
    have hl : lastIdx (fun c => c == '}') text.data = some j := by
      refine lastIdx_eq_some_iff.mpr ⟨⟨'}', hj, by simp⟩, ?_⟩
      intro k hk c hc
      by_cases hcq : c = '}'
      · subst hcq
        have hklen : k < text.data.length := by
          obtain ⟨h', _⟩ := List.getElem?_eq_some_iff.mp hc
          exact h'
        exact absurd ⟨hi, hc, by omega⟩ (hmax k hklen hk)
      · simpa using hcq
    rw [hf, hl]
    simp only []
    rw [if_pos hij, hs]

/-- `braceSpan` fails exactly when the pattern `\{.*\}` has no match. -/
theorem braceSpan_eq_none_iff {text : String} :
    braceSpan text = none ↔ ∀ i j, ¬ matchAt text.data i j := by
  unfold braceSpan
  constructor
  · intro h i j hm
    obtain ⟨hi, hj, hij⟩ := hm
    cases hf : firstIdx (fun c => c == '{') text.data with
    | none =>
      have := firstIdx_eq_none_iff.mp hf i '{' hi
      simp at this
    | some i0 =>
      cases hl : lastIdx (fun c => c == '}') text.data with
      | none =>
        have := lastIdx_eq_none_iff.mp hl j '}' hj
        simp at this
      | some j0 =>
        rw [hf, hl] at h
        simp only [] at h
        by_cases hij0 : i0 < j0
        · rw [if_pos hij0] at h
          cases h
        · obtain ⟨_, hmin⟩ := firstIdx_eq_some_iff.mp hf
          obtain ⟨_, hmax⟩ := lastIdx_eq_some_iff.mp hl
          by_cases hii0 : i < i0
          · have := hmin i hii0 '{' hi
            simp at this
          · by_cases hjj0 : j0 < j
            · have := hmax j hjj0 '}' hj
              simp at this
            · omega
  · intro h
    cases hf : firstIdx (fun c => c == '{') text.data with
    | none => rfl
    | some i0 =>
      cases hl : lastIdx (fun c => c == '}') text.data with
      | none => rfl
      | some j0 =>
        by_cases hij0 : i0 < j0
        · obtain ⟨⟨ci, hci, hpci⟩, _⟩ := firstIdx_eq_some_iff.mp hf
          obtain ⟨⟨cj, hcj, hpcj⟩, _⟩ := lastIdx_eq_some_iff.mp hl
          have hci' : text.data[i0]? = some '{' := by
            rw [hci, beq_iff_eq.mp hpci]
          have hcj' : text.data[j0]? = some '}' := by
            rw [hcj, beq_iff_eq.mp hpcj]
          exact absurd ⟨hci', hcj', hij0⟩ (h i0 j0)
        · simp only []
          rw [if_neg hij0]

/-- Unfolding one pass of the loop when the guard holds and the review
response arrives. -/
theorem review_code_loop_pass {loads : String → Option Obj}
    {rv dv : Nat → Except PyErr String} {c t : String} {m it : Int}
    {rc dc : Nat} {last : Option Obj}
    (hlt : it < m) (hrv : rv rc = Except.ok t) :
    review_code_loop loads rv dv c m it rc dc last =
      (if isApproved (parseReview loads t) then
        ⟨Except.ok (parseReview loads t, c), rc + 1, dc⟩
      else if it < m - 1 then
        exceptCase (dv dc)
          (fun e => ⟨Except.error e, rc + 1, dc + 1⟩)
          (fun newCode =>
            review_code_loop loads rv dv newCode m (it + 1)
              (rc + 1) (dc + 1) (some (parseReview loads t)))
      else
        review_code_loop loads rv dv c m (it + 1)
          (rc + 1) dc (some (parseReview loads t)) : LoopOut) := by
  conv_lhs => rw [review_code_loop.eq_def]
  rw [dif_pos hlt, hrv, exceptCase_ok]

/-- Unfolding the loop when the guard fails: the final
`return review_result, current_code`. -/
theorem review_code_loop_exit {loads : String → Option Obj}
    {rv dv : Nat → Except PyErr String} {c : String} {m it : Int}
    {rc dc : Nat} {last : Option Obj} (hge : ¬ it < m) :
    review_code_loop loads rv dv c m it rc dc last =
      optionCase last
        ⟨Except.error PyErr.nameError, rc, dc⟩
        (fun v => ⟨Except.ok (v, c), rc, dc⟩) := by
  conv_lhs => rw [review_code_loop.eq_def]
  rw [dif_neg hge]

/-- Unfolding the loop when the guard holds and the review call fails. -/
theorem review_code_loop_err {loads : String → Option Obj}
    {rv dv : Nat → Except PyErr String} {c : String} {m it : Int}
    {rc dc : Nat} {last : Option Obj} {e : PyErr}
    (hlt : it < m) (hrv : rv rc = Except.error e) :
    review_code_loop loads rv dv c m it rc dc last =
      ⟨Except.error e, rc + 1, dc⟩ := by
  conv_lhs => rw [review_code_loop.eq_def]
  rw [dif_pos hlt, hrv, exceptCase_error]

/-- The loop makes at most `(m - it).toNat` further review calls and at
most `(m - it).toNat - 1` further revision calls. -/
theorem review_code_loop_calls_le (loads : String → Option Obj)
    (rv dv : Nat → Except PyErr String) (m : Int) :
    ∀ (n : Nat) (it : Int) (c : String) (rc dc : Nat) (last : Option Obj),
      (m - it).toNat = n →
      (review_code_loop loads rv dv c m it rc dc last).reviewCalls ≤ rc + n ∧
      (review_code_loop loads rv dv c m it rc dc last).revisionCalls ≤ dc + (n - 1) := by
  intro n
  induction n with
  | zero =>
    intro it c rc dc last hn
    have hge : ¬ it < m := by omega
    rw [review_code_loop_exit hge]
    cases last <;> simp
  | succ k ih =>
    intro it c rc dc last hn
    have hlt : it < m := by omega
    cases hrv : rv rc with
    | error e =>
      rw [review_code_loop_err hlt hrv]
      dsimp only
      omega
    | ok t =>
      rw [review_code_loop_pass hlt hrv]
      by_cases happ : isApproved (parseReview loads t) = true
      · rw [if_pos happ]
        dsimp only
        omega
      · rw [if_neg happ]
        by_cases hrev : it < m - 1
        · rw [if_pos hrev]
          have hk : k ≥ 1 := by omega
          cases hdv : dv dc with
          | error e =>
            rw [exceptCase_error]
            dsimp only
            omega
          | ok newCode =>
            rw [exceptCase_ok]
            have hkn : (m - (it + 1)).toNat = k := by omega
            obtain ⟨h1, h2⟩ := ih (it + 1) newCode (rc + 1) (dc + 1)
              (some (parseReview loads t)) hkn
            constructor
            · exact le_trans h1 (by omega)
            · exact le_trans h2 (by omega)
        · rw [if_neg hrev]
          have hkn : (m - (it + 1)).toNat = k := by omega
          obtain ⟨h1, h2⟩ := ih (it + 1) c (rc + 1) dc (some (parseReview loads t)) hkn
          constructor
          · exact le_trans h1 (by omega)
          · exact le_trans h2 (by omega)

/-- When every reviewer response parses to a rejecting verdict, the loop
runs its remaining `(m - it).toNat` passes to exhaustion: it returns the
verdict of the last review, paired with the code produced by the last
revision (or the entry code when no pass revises), making one review call
per pass and one revision call per pass except the last. -/
theorem review_code_loop_all_reject {loads : String → Option Obj}
    {rt dt : Nat → String} {m : Int}
    (h2 : ∀ i, isApproved (parseReview loads (rt i)) = false) :
    ∀ (n : Nat) (it : Int) (c : String) (rc dc : Nat) (last : Option Obj),
      it < m → (m - it).toNat = n →
      review_code_loop loads (okSeq rt) (okSeq dt) c m it rc dc last =
        ⟨Except.ok (parseReview loads (rt (rc + n - 1)),
          if n = 1 then c else dt (dc + n - 2)),
         rc + n, dc + (n - 1)⟩ := by
  intro n
  induction n with
  | zero =>
    intro it c rc dc last hlt hn
    omega
  | succ k ih =>
    intro it c rc dc last hlt hn
    have hrv : okSeq rt rc = Except.ok (rt rc) := rfl
    rw [review_code_loop_pass hlt hrv]
    rw [if_neg (by rw [h2 rc]; exact Bool.false_ne_true)]
    cases k with
    | zero =>
      have hrev : ¬ it < m - 1 := by omega
      rw [if_neg hrev]
      have hge : ¬ it + 1 < m := by omega
      rw [review_code_loop_exit hge, optionCase_some]
      simp
    | succ k' =>
      have hrev : it < m - 1 := by omega
      rw [if_pos hrev]
      have hdv : okSeq dt dc = Except.ok (dt dc) := rfl
      rw [hdv, exceptCase_ok]
      rw [ih (it + 1) (dt dc) (rc + 1) (dc + 1) (some (parseReview loads (rt rc)))
        (by omega) (by omega)]
      have e1 : rc + 1 + (k' + 1) - 1 = rc + (k' + 1 + 1) - 1 := by omega
      have e2 : rc + 1 + (k' + 1) = rc + (k' + 1 + 1) := by omega
      have e3 : dc + 1 + (k' + 1 - 1) = dc + (k' + 1 + 1 - 1) := by omega
      have e4 : (if k' + 1 = 1 then dt dc else dt (dc + 1 + (k' + 1) - 2)) =
          if k' + 1 + 1 = 1 then c else dt (dc + (k' + 1 + 1) - 2) := by
        rw [if_neg (show ¬ k' + 1 + 1 = 1 by omega)]
        cases k' with
        | zero => simp
        | succ k'' =>
          rw [if_neg (by omega)]
          congr 1
          omega
      rw [e4, e1, e2, e3]

/-- The loop never forgets revision calls already made. -/
theorem review_code_loop_revisions_ge (loads : String → Option Obj)
    (rv dv : Nat → Except PyErr String) (m : Int) :
    ∀ (n : Nat) (it : Int) (c : String) (rc dc : Nat) (last : Option Obj),
      (m - it).toNat = n →
      dc ≤ (review_code_loop loads rv dv c m it rc dc last).revisionCalls := by
  intro n
  induction n with
  | zero =>
    intro it c rc dc last hn
    have hge : ¬ it < m := by omega
    rw [review_code_loop_exit hge]
    cases last <;> simp
  | succ k ih =>
    intro it c rc dc last hn
    have hlt : it < m := by omega
    cases hrv : rv rc with
    | error e =>
      rw [review_code_loop_err hlt hrv]
    | ok t =>
      rw [review_code_loop_pass hlt hrv]
      by_cases happ : isApproved (parseReview loads t) = true
      · rw [if_pos happ]
      · rw [if_neg happ]
        by_cases hrev : it < m - 1
        · rw [if_pos hrev]
          cases hdv : dv dc with
          | error e =>
            rw [exceptCase_error]
            dsimp only
            omega
          | ok newCode =>
            rw [exceptCase_ok]
            have := ih (it + 1) newCode (rc + 1) (dc + 1)
              (some (parseReview loads t)) (by omega)
            omega
        · rw [if_neg hrev]
          exact ih (it + 1) c (rc + 1) dc (some (parseReview loads t)) (by omega)

/-- With failure-free oracles and at least one pass remaining, the loop
returns a verdict/code pair (no exception escapes). -/
theorem review_code_loop_ok (loads : String → Option Obj)
    (rv dv : Nat → Except PyErr String)
    (hrvok : ∀ i, ∃ t, rv i = Except.ok t)
    (hdvok : ∀ i, ∃ t, dv i = Except.ok t) (m : Int) :
    ∀ (n : Nat) (it : Int) (c : String) (rc dc : Nat) (last : Option Obj),
      it < m → (m - it).toNat = n →
      ∃ v fc, (review_code_loop loads rv dv
        c m it rc dc last).result = Except.ok (v, fc) := by
  intro n
  induction n with
  | zero =>
    intro it c rc dc last hlt hn
    omega
  | succ k ih =>
    intro it c rc dc last hlt hn
    obtain ⟨t, hrv⟩ := hrvok rc
    rw [review_code_loop_pass hlt hrv]
    by_cases happ : isApproved (parseReview loads t) = true
    · rw [if_pos happ]
      exact ⟨parseReview loads t, c, rfl⟩
    · rw [if_neg happ]
      by_cases hrev : it < m - 1
      · rw [if_pos hrev]
        obtain ⟨u, hdv⟩ := hdvok dc
        rw [hdv, exceptCase_ok]
        exact ih (it + 1) u (rc + 1) (dc + 1)
          (some (parseReview loads t)) (by omega) (by omega)
      · rw [if_neg hrev]
        have hge : ¬ it + 1 < m := by omega
        rw [review_code_loop_exit hge, optionCase_some]
        exact ⟨parseReview loads t, c, rfl⟩

/-- C1: For every `max_iterations >= 1`, every sequence of Reviewer
responses, and every sequence of Developer responses, the revision loop
(`_review_code`) terminates (it is a total function of its inputs) and
performs at most `max_iterations` review invocations and at most
`max_iterations - 1` revision invocations. -/
theorem C1_loop_bounded (loads : String → Option Obj) (rt dt : Nat → String)
    (code : String) (m : Int) (h : 1 ≤ m) :
    (review_code loads (okSeq rt) (okSeq dt) code m).reviewCalls ≤ m.toNat ∧
    (review_code loads (okSeq rt) (okSeq dt) code m).revisionCalls ≤ m.toNat - 1 := by
  have hb := review_code_loop_calls_le loads (okSeq rt) (okSeq dt) m
    m.toNat 0 code 0 0 none (by omega)
  unfold review_code
  omega

/-- Witness for C1 at `max_iterations = 3` with constant responses. -/
theorem C1_loop_bounded_witness :
    (1 : Int) ≤ 3 ∧
    (review_code (fun _ => none) (okSeq fun _ => "r") (okSeq fun _ => "d")
      "c" 3).reviewCalls ≤ (3 : Int).toNat ∧
    (review_code (fun _ => none) (okSeq fun _ => "r") (okSeq fun _ => "d")
      "c" 3).revisionCalls ≤ (3 : Int).toNat - 1 :=
  ⟨by decide,
   C1_loop_bounded (fun _ => none) (fun _ => "r") (fun _ => "d") "c" 3 (by decide)⟩

/-- C9: For every `max_iterations <= 0` the loop body never executes and
`_review_code` raises (`review_result` is referenced before assignment in
the final `return`), performing no review and no revision. -/
theorem C9_nonpositive_budget (loads : String → Option Obj)
    (rv dv : Nat → Except PyErr String) (code : String) (m : Int) (h : m ≤ 0) :
    review_code loads rv dv code m =
      ⟨Except.error PyErr.nameError, 0, 0⟩ := by
  unfold review_code
  rw [review_code_loop_exit (by omega), optionCase_none]

/-- Witness for C9 at `max_iterations = -1`. -/
theorem C9_nonpositive_budget_witness :
    (-1 : Int) ≤ 0 ∧
    review_code (fun _ => none) (okSeq fun _ => "r") (okSeq fun _ => "d")
      "c" (-1) = ⟨Except.error PyErr.nameError, 0, 0⟩ :=
  ⟨by decide,
   C9_nonpositive_budget (fun _ => none) (okSeq fun _ => "r")
     (okSeq fun _ => "d") "c" (-1) (by decide)⟩

/-- C4: If the Reviewer's first response parses to `status = approved`,
the loop performs zero Developer revision invocations and returns that
verdict together with the original input code unchanged (one review
invocation).  Requires a positive budget so that the first review
happens at all. -/
theorem C4_first_approved (loads : String → Option Obj)
    (rv dv : Nat → Except PyErr String) (code t0 : String) (m : Int)
    (h1 : 1 ≤ m) (h2 : rv 0 = Except.ok t0)
    (h3 : isApproved (parseReview loads t0) = true) :
    review_code loads rv dv code m =
      ⟨Except.ok (parseReview loads t0, code), 1, 0⟩ := by
  unfold review_code
  rw [review_code_loop_pass (by omega) h2, if_pos h3]

/-- Witness for C4: a decodable approving verdict on the first review. -/
theorem C4_first_approved_witness :
    review_code
      (fun s => if s == "\x7b\"status\": \"approved\", \"score\": 9\x7d"
        then some [("status", Json.str "approved"), ("score", Json.num 9)] else none)
      (okSeq fun _ => "\x7b\"status\": \"approved\", \"score\": 9\x7d")
      (okSeq fun _ => "d") "def add(a, b): return a + b" 3 =
      ⟨Except.ok ([("status", Json.str "approved"), ("score", Json.num 9)],
        "def add(a, b): return a + b"), 1, 0⟩ := by
  have h := C4_first_approved
    (fun s => if s == "\x7b\"status\": \"approved\", \"score\": 9\x7d"
      then some [("status", Json.str "approved"), ("score", Json.num 9)] else none)
    (okSeq fun _ => "\x7b\"status\": \"approved\", \"score\": 9\x7d")
    (okSeq fun _ => "d") "def add(a, b): return a + b"
    "\x7b\"status\": \"approved\", \"score\": 9\x7d" 3
    (by decide) rfl rfl
  exact h.trans (by rfl)

/-- C5: Whenever a Reviewer response has no decodable JSON span, the loop
substitutes the fallback verdict `{status: approved, score: 8}`, treats it
as an approval, and terminates immediately, returning the current code
with no further revision — from any reachable loop state. -/
theorem C5_malformed_fail_open (loads : String → Option Obj)
    (rv dv : Nat → Except PyErr String) (c t : String) (m it : Int)
    (rc dc : Nat) (last : Option Obj)
    (h1 : it < m) (h2 : rv rc = Except.ok t)
    (h3 : braceSpan t = none ∨ ∃ s, braceSpan t = some s ∧ loads s = none) :
    parseReview loads t = reviewFallback ∧
    isApproved reviewFallback = true ∧
    review_code_loop loads rv dv c m it rc dc last =
      ⟨Except.ok (reviewFallback, c), rc + 1, dc⟩ := by
  have hp : parseReview loads t = reviewFallback := by
    unfold parseReview extract_structured
    rcases h3 with h | ⟨s, hs, hl⟩
    · rw [h]
    · rw [hs]
      simp only []
      rw [hl]
  refine ⟨hp, rfl, ?_⟩
  rw [review_code_loop_pass h1 h2, hp,
    if_pos (show isApproved reviewFallback = true from rfl)]

/-- Witness for C5: the reviewer answers `"{incomplete json"` (no
closing brace, hence no span) on the first pass. -/
theorem C5_malformed_fail_open_witness :
    (braceSpan "\x7bincomplete json" = none ∨
      ∃ s, braceSpan "\x7bincomplete json" = some s ∧
        (fun _ => (none : Option Obj)) s = none) ∧
    parseReview (fun _ => none) "\x7bincomplete json" = reviewFallback ∧
    isApproved reviewFallback = true ∧
    review_code_loop (fun _ => none) (okSeq fun _ => "\x7bincomplete json")
      (okSeq fun _ => "d") "print(1)" 3 0 0 0 none =
      ⟨Except.ok (reviewFallback, "print(1)"), 0 + 1, 0⟩ :=
  ⟨Or.inl rfl,
   C5_malformed_fail_open (fun _ => none) (okSeq fun _ => "\x7bincomplete json")
     (okSeq fun _ => "d") "print(1)" "\x7bincomplete json" 3 0 0 0 none
     (by decide) rfl (Or.inl rfl)⟩

/-- C10: A Reviewer response that decodes to a JSON object which does not
carry `status = "approved"` (for instance one lacking a `status` field,
such as `{}`) is not treated as an approval: with budget remaining, the
loop proceeds to a revision (the revision count strictly increases) and
continues from the revised code. -/
theorem C10_no_status_revises (loads : String → Option Obj)
    (rv dv : Nat → Except PyErr String) (c t s0 nc : String) (m it : Int)
    (rc dc : Nat) (last : Option Obj) (o : Obj)
    (h1 : it < m - 1) (h2 : rv rc = Except.ok t)
    (h3 : braceSpan t = some s0) (h4 : loads s0 = some o)
    (h5 : isApproved o = false) (h6 : dv dc = Except.ok nc) :
    review_code_loop loads rv dv c m it rc dc last =
      review_code_loop loads rv dv nc m (it + 1) (rc + 1) (dc + 1) (some o) ∧
    dc + 1 ≤ (review_code_loop loads rv dv c m it rc dc last).revisionCalls := by
  have hp : parseReview loads t = o := by
    unfold parseReview extract_structured
    rw [h3]
    simp only []
    rw [h4]
  have heq : review_code_loop loads rv dv c m it rc dc last =
      review_code_loop loads rv dv nc m (it + 1) (rc + 1) (dc + 1) (some o) := by
    rw [review_code_loop_pass (by omega) h2, hp,
      if_neg (by rw [h5]; exact Bool.false_ne_true), if_pos h1, h6, exceptCase_ok]
  refine ⟨heq, ?_⟩
  rw [heq]
  exact review_code_loop_revisions_ge loads rv dv m
    (m - (it + 1)).toNat (it + 1) nc (rc + 1) (dc + 1) (some o) rfl

/-- Witness for C10: the reviewer answers `"{}"` (valid JSON, no
`status` field) on the first pass with budget 3. -/
theorem C10_no_status_revises_witness :
    review_code_loop (fun s => if s == "\x7b\x7d" then some [] else none)
      (okSeq fun _ => "\x7b\x7d") (okSeq fun _ => "revised") "c0" 3 0 0 0 none =
      review_code_loop (fun s => if s == "\x7b\x7d" then some [] else none)
        (okSeq fun _ => "\x7b\x7d") (okSeq fun _ => "revised") "revised"
        3 (0 + 1) (0 + 1) (0 + 1) (some []) ∧
    0 + 1 ≤ (review_code_loop (fun s => if s == "\x7b\x7d" then some [] else none)
      (okSeq fun _ => "\x7b\x7d") (okSeq fun _ => "revised") "c0"
      3 0 0 0 none).revisionCalls :=
  C10_no_status_revises (fun s => if s == "\x7b\x7d" then some [] else none)
    (okSeq fun _ => "\x7b\x7d") (okSeq fun _ => "revised")
    "c0" "\x7b\x7d" "\x7b\x7d" "revised" 3 0 0 0 none []
    (by decide) rfl rfl rfl rfl rfl

/-- C3: If every Reviewer response parses to `status = needs_revision`,
then for every `max_iterations >= 1` the loop exhausts its budget:
`max_iterations` reviews and `max_iterations - 1` revisions happen, and it
returns the verdict of the final review together with the code produced by
the final revision — the code that verdict reviewed — which is the
pre-loop code only in the no-revision case `max_iterations = 1`. -/
theorem C3_always_rejected_exhausts (loads : String → Option Obj)
    (rt dt : Nat → String) (code : String) (m : Int) (h1 : 1 ≤ m)
    (h2 : ∀ i, jGet (parseReview loads (rt i)) "status" =
      some (Json.str "needs_revision")) :
    review_code loads (okSeq rt) (okSeq dt) code m =
      ⟨Except.ok (parseReview loads (rt (m.toNat - 1)),
        if m = 1 then code else dt (m.toNat - 2)),
       m.toNat, m.toNat - 1⟩ := by
  have h2' : ∀ i, isApproved (parseReview loads (rt i)) = false := by
    intro i
    unfold isApproved
    rw [h2 i]
    rfl
  unfold review_code
  rw [review_code_loop_all_reject h2' m.toNat 0 code 0 0 none (by omega) (by omega)]
  have e1 : 0 + m.toNat - 1 = m.toNat - 1 := by omega
  have e2 : 0 + m.toNat = m.toNat := by omega
  have e3 : 0 + (m.toNat - 1) = m.toNat - 1 := by omega
  have e4 : (if m.toNat = 1 then code else dt (0 + m.toNat - 2)) =
      if m = 1 then code else dt (m.toNat - 2) := by
    by_cases hm : m = 1
    · rw [if_pos hm, if_pos (show m.toNat = 1 by omega)]
    · rw [if_neg hm, if_neg (show ¬ m.toNat = 1 by omega)]
      congr 1
      omega
  rw [e4, e1, e2, e3]

/-- Witness for C3: a constant rejecting reviewer, budget 2 — two reviews,
one revision, and the loop returns the rejecting verdict with the revised
code, not the original. -/
theorem C3_always_rejected_exhausts_witness :
    review_code
      (fun s => if s == "\x7b\"status\": \"needs_revision\", \"score\": 5\x7d"
        then some [("status", Json.str "needs_revision"), ("score", Json.num 5)]
        else none)
      (okSeq fun _ => "\x7b\"status\": \"needs_revision\", \"score\": 5\x7d")
      (okSeq fun _ => "code_v2") "code_v1" 2 =
      ⟨Except.ok ([("status", Json.str "needs_revision"), ("score", Json.num 5)],
        "code_v2"), 2, 1⟩ := by
  have h := C3_always_rejected_exhausts
    (fun s => if s == "\x7b\"status\": \"needs_revision\", \"score\": 5\x7d"
      then some [("status", Json.str "needs_revision"), ("score", Json.num 5)]
      else none)
    (fun _ => "\x7b\"status\": \"needs_revision\", \"score\": 5\x7d")
    (fun _ => "code_v2") "code_v1" 2 (by decide) (fun _ => rfl)
  exact h.trans (by rfl)

/-- C2: The parser selects the substring running from the first `{` to
the last `}` (the leftmost-greedy match of `\{.*\}`, not
nested-brace-aware); if that substring decodes, the parser returns exactly
the decoded value; on decode failure, or when no such substring exists (no
`{` followed by a later `}`), it returns the supplied fallback unchanged.
Being a total function, it never raises. -/
theorem C2_extract_structured (loads : String → Option Obj)
    (text : String) (fb : Obj) :
    (∀ i j, searchSpan text.data i j →
      braceSpan text = some (spanSlice text.data i j) ∧
      (∀ v, loads (spanSlice text.data i j) = some v →
        extract_structured loads text fb = v) ∧
      (loads (spanSlice text.data i j) = none →
        extract_structured loads text fb = fb)) ∧
    ((∀ i < text.data.length, ∀ j < text.data.length, ¬ matchAt text.data i j) →
      extract_structured loads text fb = fb) := by
  constructor
  · intro i j hs
    have hb : braceSpan text = some (spanSlice text.data i j) :=
      braceSpan_eq_some_iff.mpr ⟨i, j, hs, rfl⟩
    refine ⟨hb, ?_, ?_⟩
    · intro v hv
      unfold extract_structured
      rw [hb]
      simp only []
      rw [hv]
    · intro hv
      unfold extract_structured
      rw [hb]
      simp only []
      rw [hv]
  · intro h
    have hb : braceSpan text = none := by
      rw [braceSpan_eq_none_iff]
      intro i j hm
      obtain ⟨hi, hj⟩ := matchAt_lt_length hm
      exact h i hi j hj hm
    unfold extract_structured
    rw [hb]

/-- Witness for C2 on `"a{b}x{c}d"`: the greedy span is `"{b}x{c}"`
(first `{` to last `}`), and a decoder accepting exactly that span makes
the parser return the decoded object. -/
theorem C2_extract_structured_witness :
    searchSpan "a\x7bb\x7dx\x7bc\x7dd".data 1 7 ∧
    braceSpan "a\x7bb\x7dx\x7bc\x7dd" =
      some (spanSlice "a\x7bb\x7dx\x7bc\x7dd".data 1 7) ∧
    extract_structured
      (fun s => if s == "\x7bb\x7dx\x7bc\x7d" then some [("k", Json.num 1)] else none)
      "a\x7bb\x7dx\x7bc\x7dd" [] = [("k", Json.num 1)] := by
  have hspan : searchSpan "a\x7bb\x7dx\x7bc\x7dd".data 1 7 := by decide
  have h := (C2_extract_structured
    (fun s => if s == "\x7bb\x7dx\x7bc\x7d" then some [("k", Json.num 1)] else none)
    "a\x7bb\x7dx\x7bc\x7dd" []).1 1 7 hspan
  exact ⟨hspan, h.1, h.2.1 [("k", Json.num 1)] rfl⟩

/-- C8: For every requirement string, when the Analyst response contains
no decodable JSON span (no span at all, or an undecodable one),
requirements analysis returns exactly the fixed fallback record with the
original requirement as `description`. -/
theorem C8_analyst_fallback (loads : String → Option Obj)
    (t requirement : String)
    (h : braceSpan t = none ∨ ∃ s, braceSpan t = some s ∧ loads s = none) :
    analyze_requirements loads t requirement =
      [("title", Json.str "Software Project"),
       ("description", Json.str requirement),
       ("features", Json.arr [Json.str "Core functionality"]),
       ("constraints", Json.arr [Json.str "Python implementation"]),
       ("edge_cases", Json.arr [])] := by
  unfold analyze_requirements extract_structured
  rcases h with h | ⟨s, hs, hl⟩
  · rw [h]
    rfl
  · rw [hs]
    simp only []
    rw [hl]
    rfl

/-- Witness for C8: an Analyst response with no braces at all. -/
theorem C8_analyst_fallback_witness :
    analyze_requirements (fun _ => none) "no structured output here"
      "Build a calculator" =
      [("title", Json.str "Software Project"),
       ("description", Json.str "Build a calculator"),
       ("features", Json.arr [Json.str "Core functionality"]),
       ("constraints", Json.arr [Json.str "Python implementation"]),
       ("edge_cases", Json.arr [])] :=
  C8_analyst_fallback (fun _ => none) "no structured output here"
    "Build a calculator" (Or.inl rfl)

/-- C7: Each stage's output is written into the result mapping immediately
after that stage completes, and a stage failure propagates the exception
without running the remaining stages, leaving exactly the previously
completed stages' outputs in the mapping (no rollback).  One conjunct per
failure point of a fresh run; the returned mapping is exactly the outputs
accumulated so far. -/
theorem C7_failure_keeps_prior_stages (env : Env) (req : String) :
    (∀ e, env.analystText = Except.error e →
      process_requirement env req [] = ([], some e)) ∧
    (∀ a e, env.analystText = Except.ok a → env.devText 0 = Except.error e →
      process_requirement env req [] =
        ([("requirements", Json.obj (analyze_requirements env.loads a req))],
         some e)) ∧
    (∀ a g e, env.analystText = Except.ok a → env.devText 0 = Except.ok g →
      (review_code env.loads env.reviewText (fun i => env.devText (i + 1))
        g 3).result = Except.error e →
      process_requirement env req [] =
        ([("requirements", Json.obj (analyze_requirements env.loads a req)),
          ("code", Json.str g)], some e)) ∧
    (∀ a g v fc e, env.analystText = Except.ok a → env.devText 0 = Except.ok g →
      (review_code env.loads env.reviewText (fun i => env.devText (i + 1))
        g 3).result = Except.ok (v, fc) →
      env.docText = Except.error e →
      process_requirement env req [] =
        ([("requirements", Json.obj (analyze_requirements env.loads a req)),
          ("code", Json.str g), ("review", Json.obj v),
          ("final_code", Json.str fc)], some e)) ∧
    (∀ a g v fc d e, env.analystText = Except.ok a → env.devText 0 = Except.ok g →
      (review_code env.loads env.reviewText (fun i => env.devText (i + 1))
        g 3).result = Except.ok (v, fc) →
      env.docText = Except.ok d → env.testText = Except.error e →
      process_requirement env req [] =
        ([("requirements", Json.obj (analyze_requirements env.loads a req)),
          ("code", Json.str g), ("review", Json.obj v),
          ("final_code", Json.str fc), ("documentation", Json.str d)],
         some e)) ∧
    (∀ a g v fc d ts e, env.analystText = Except.ok a →
      env.devText 0 = Except.ok g →
      (review_code env.loads env.reviewText (fun i => env.devText (i + 1))
        g 3).result = Except.ok (v, fc) →
      env.docText = Except.ok d → env.testText = Except.ok ts →
      env.deployText = Except.error e →
      process_requirement env req [] =
        ([("requirements", Json.obj (analyze_requirements env.loads a req)),
          ("code", Json.str g), ("review", Json.obj v),
          ("final_code", Json.str fc), ("documentation", Json.str d),
          ("tests", Json.str ts)], some e)) := by
  refine ⟨?_, ?_, ?_, ?_, ?_, ?_⟩
  · intro e ha
    simp only [process_requirement, ha]
  · intro a e ha hg
    simp only [process_requirement, ha, hg]
    simp [upsert]
  · intro a g e ha hg hloop
    simp only [process_requirement, ha, hg, hloop, process_after_code]
    simp [upsert]
  · intro a g v fc e ha hg hloop hdoc
    simp only [process_requirement, ha, hg, hloop, process_after_code, hdoc]
    simp [upsert]
  · intro a g v fc d e ha hg hloop hdoc htest
    simp only [process_requirement, ha, hg, hloop, process_after_code, hdoc, htest]
    simp [upsert]
  · intro a g v fc d ts e ha hg hloop hdoc htest hdep
    simp only [process_requirement, ha, hg, hloop, process_after_code, hdoc,
      htest, hdep]
    simp [upsert]

/-- Witness for C7: the Analyst call fails with a transport error on a
fresh run — the caller gets the exception and an empty mapping. -/
theorem C7_failure_keeps_prior_stages_witness :
    process_requirement envAnalystDown "Build a calculator" [] =
      ([], some (PyErr.transport "connection refused")) :=
  (C7_failure_keeps_prior_stages envAnalystDown "Build a calculator").1
    (PyErr.transport "connection refused") rfl

/-- C6 (amended): For every requirement string, when all six role
invocations succeed, `process_requirement` returns without exception and
the result mapping contains exactly the keys `requirements`, `code`,
`review`, `final_code`, `documentation`, `tests`, `deployment`, in that
order.  (The values are the raw stage outputs and need not be
non-empty; see the counterexample.) -/
theorem C6_result_keys (env : Env) (req a d ts dp : String)
    (ha : env.analystText = Except.ok a)
    (hd : ∀ i, ∃ t, env.devText i = Except.ok t)
    (hr : ∀ i, ∃ t, env.reviewText i = Except.ok t)
    (hdoc : env.docText = Except.ok d)
    (htest : env.testText = Except.ok ts)
    (hdep : env.deployText = Except.ok dp) :
    (process_requirement env req []).2 = none ∧
    (process_requirement env req []).1.map Prod.fst =
      ["requirements", "code", "review", "final_code", "documentation",
       "tests", "deployment"] := by
  obtain ⟨g, hg⟩ := hd 0
  obtain ⟨v, fc, hvfc⟩ := review_code_loop_ok env.loads env.reviewText
    (fun i => env.devText (i + 1)) hr (fun i => hd (i + 1)) 3 3 0 g 0 0 none
    (by omega) (by decide)
  have hvfc' : (review_code env.loads env.reviewText
      (fun i => env.devText (i + 1)) g 3).result = Except.ok (v, fc) := hvfc
  refine ⟨?_, ?_⟩ <;>
    simp [process_requirement, ha, hg, hvfc', process_after_code, hdoc,
      htest, hdep, upsert]

/-- Witness for C6 (amended): a run in which every role responds. -/
theorem C6_result_keys_witness :
    (process_requirement envAllOk "Build a calculator" []).2 = none ∧
    (process_requirement envAllOk "Build a calculator" []).1.map Prod.fst =
      ["requirements", "code", "review", "final_code", "documentation",
       "tests", "deployment"] :=
  C6_result_keys envAllOk "Build a calculator" "analysis" "docs" "tests"
    "deploy" rfl (fun _ => ⟨"some code", rfl⟩) (fun _ => ⟨"looks good", rfl⟩)
    rfl rfl rfl

/-- Counterexample to C6 as stated: with every role invocation
succeeding (all six respond, here with empty strings), the run completes
without exception, yet the `code` entry of the result mapping is the empty
string — not a non-empty value.  The code never guarantees non-emptiness
of stage outputs. -/
theorem C6_nonempty_counterexample :
    envEmptyResponses.analystText = Except.ok "" ∧
    (∀ i, envEmptyResponses.devText i = Except.ok "") ∧
    (∀ i, envEmptyResponses.reviewText i = Except.ok "") ∧
    envEmptyResponses.docText = Except.ok "" ∧
    envEmptyResponses.testText = Except.ok "" ∧
    envEmptyResponses.deployText = Except.ok "" ∧
    (process_requirement envEmptyResponses "r" []).2 = none ∧
    ("code", Json.str "") ∈ (process_requirement envEmptyResponses "r" []).1 ∧
    jsonNonempty (Json.str "") = false := by
  have hloopres : (review_code envEmptyResponses.loads envEmptyResponses.reviewText
      (fun i => envEmptyResponses.devText (i + 1)) "" 3).result =
      Except.ok (reviewFallback, "") := by
    unfold review_code
    rw [review_code_loop_pass (show (0 : Int) < 3 by decide)
      (show envEmptyResponses.reviewText 0 = Except.ok "" from rfl),
      if_pos (show isApproved (parseReview envEmptyResponses.loads "") = true
        from rfl)]
    rfl
  have hmem : process_requirement envEmptyResponses "r" [] =
      ([("requirements", Json.obj (reqFallback "r")), ("code", Json.str ""),
        ("review", Json.obj reviewFallback), ("final_code", Json.str ""),
        ("documentation", Json.str ""), ("tests", Json.str ""),
        ("deployment", Json.obj [("script", Json.str ""),
          ("timestamp", Json.str "2026-01-01T00:00:00")])], none) :=
    calc process_requirement envEmptyResponses "r" []
        = process_after_code envEmptyResponses
            [("requirements", Json.obj (reqFallback "r")), ("code", Json.str "")]
            ((review_code envEmptyResponses.loads envEmptyResponses.reviewText
              (fun i => envEmptyResponses.devText (i + 1)) "" 3).result) := rfl
      _ = process_after_code envEmptyResponses
            [("requirements", Json.obj (reqFallback "r")), ("code", Json.str "")]
            (Except.ok (reviewFallback, "")) := by rw [hloopres]
      _ = ([("requirements", Json.obj (reqFallback "r")), ("code", Json.str ""),
            ("review", Json.obj reviewFallback), ("final_code", Json.str ""),
            ("documentation", Json.str ""), ("tests", Json.str ""),
            ("deployment", Json.obj [("script", Json.str ""),
              ("timestamp", Json.str "2026-01-01T00:00:00")])], none) := rfl
  refine ⟨rfl, fun _ => rfl, fun _ => rfl, rfl, rfl, rfl, ?_, ?_, rfl⟩
  · rw [hmem]
  · rw [hmem]
    simp
